import Mathlib

/-!
Verification of the knowledge ingestion and summarization pipeline
(`workers/ingest_worker.py`): chunking, embedding, persistence ordering,
the processed-flag protocol and the batch sweep.

Raw text is represented by its whitespace-split word sequence (the source's
first step is `words = text.split()`), so a chunk is the list of words whose
`" ".join` the source persists, and a chunk's word count is its list length.
-/

set_option maxRecDepth 100000

namespace IngestWorker

/-- The accumulation loop of `chunk_text`: words are appended to `current`
one at a time; the source closes a chunk when `len(current) > max_tokens`
holds after the append, and keeps any trailing nonempty `current`. -/
def chunkLoop (maxTokens : Nat) : List String → List String → List (List String) → List (List String)
  | [], current, chunks => if current = [] then chunks else chunks ++ [current]
  | w :: rest, current, chunks =>
      if (current ++ [w]).length > maxTokens then
        chunkLoop maxTokens rest [] (chunks ++ [current ++ [w]])
      else
        chunkLoop maxTokens rest (current ++ [w]) chunks

/-- `chunk_text(text, max_tokens)` over the word sequence of `text`. -/
def chunk_text (words : List String) (maxTokens : Nat) : List (List String) :=
  chunkLoop maxTokens words [] []

/-- The default chunk threshold (`max_tokens=350`), used by `process_item`. -/
def CHUNK_MAX : Nat := 350

theorem chunkLoop_flatten (maxTokens : Nat) (words : List String) :
    ∀ (current : List String) (chunks : List (List String)),
      (chunkLoop maxTokens words current chunks).flatten = chunks.flatten ++ (current ++ words) := by
  induction words with
  | nil =>
      intro current chunks
      by_cases h : current = [] <;> simp [chunkLoop, h]
  | cons w rest ih =>
      intro current chunks
      by_cases h : (current ++ [w]).length > maxTokens
      · simp only [chunkLoop, if_pos h, ih]
        simp
      · simp only [chunkLoop, if_neg h, ih]
        simp

/-- C1: the claim that every chunk has word count at most the threshold
fails: on 351 identical words with threshold 350 the source emits a single
chunk of 351 words, because a chunk is closed only after its length already
exceeds the threshold. -/
theorem C1_chunk_exceeds_bound :
    chunk_text (List.replicate 351 "w") 350 = [List.replicate 351 "w"] ∧
    ∃ c ∈ chunk_text (List.replicate 351 "w") 350, c.length > 350 := by
  constructor
  · decide
  · exact ⟨List.replicate 351 "w", by decide, by decide⟩

/-- C2: the claim that 400 words with threshold 350 split into chunks of
350 and 50 words fails: the source produces chunks of 351 and 49 words. -/
theorem C2_four_hundred_split :
    (chunk_text (List.replicate 400 "w") 350).map List.length = [351, 49] ∧
    (chunk_text (List.replicate 400 "w") 350).map List.length ≠ [350, 50] := by
  constructor
  · decide
  · decide

/-- C3: concatenating the chunks in index order reproduces the input word
sequence, and empty input yields zero chunks. -/
theorem C3_reconstruction (maxTokens : Nat) (words : List String) :
    (chunk_text words maxTokens).flatten = words ∧
    chunk_text ([] : List String) maxTokens = [] := by
  refine ⟨?_, rfl⟩
  simpa using chunkLoop_flatten maxTokens words [] []

/-- JSON scalar values, enough for the metadata maps the worker reads and
writes (`metadata` is a free-form JSON object; the worker itself only ever
writes the boolean `processed` key). -/
inductive JVal where
  | null
  | bool (b : Bool)
  | str (s : String)
  | num (n : Int)
  deriving DecidableEq, Repr

/-- A JSON object, as Python sees it: an insertion-ordered dict. -/
abbrev JObj := List (String × JVal)

/-- Dict lookup: the value stored at `k`, if any. -/
def metaLookup (m : JObj) (k : String) : Option JVal :=
  (m.find? (fun p => p.1 == k)).map (fun p => p.2)

/-- The dict produced by the Python spread `{**m, k: v}`: if `k` is present
its value is overwritten in place, otherwise the pair is appended. -/
def setKey (m : JObj) (k : String) (v : JVal) : JObj :=
  if m.any (fun p => p.1 == k) then
    m.map (fun p => if p.1 == k then (k, v) else p)
  else m ++ [(k, v)]

/-- A `knowledge_items` row as the worker reads it: `raw_text` is given by
its whitespace-split word sequence; `metadata` is `none` when the item has
no metadata map. -/
structure Item where
  id : String
  client_id : String
  raw_text : List String
  metadata : Option JObj
  deriving DecidableEq, Repr

/-- The metadata written back in step 5 of `process_item`:
`{**item.get("metadata", {}), "processed": True}`. -/
def markedMetadata (item : Item) : JObj :=
  setKey (item.metadata.getD []) "processed" (JVal.bool true)

/-- The item as it stands after `process_item` wrote its metadata back. -/
def markItemProcessed (item : Item) : Item :=
  { item with metadata := some (markedMetadata item) }

/-- The value of the item's `processed` metadata key (absent metadata map
counts as an absent key). -/
def processedVal (item : Item) : Option JVal :=
  match item.metadata with
  | none => none
  | some m => metaLookup m "processed"

/-- PostgREST text extraction `->>`: a JSON scalar rendered as text, with
JSON `null` rendered as SQL NULL. -/
def jsonText : JVal → Option String
  | JVal.null => none
  | JVal.bool b => some (if b then "true" else "false")
  | JVal.str s => some s
  | JVal.num n => some (toString n)

/-- `metadata->>k` for an item: NULL when the map is absent, the key is
absent, or the stored value is JSON null. -/
def metaArrowText (item : Item) (k : String) : Option String :=
  match item.metadata with
  | none => none
  | some m => (metaLookup m k).bind jsonText

/-- The poll filter of `main`:
`or_("metadata->>processed.eq.false,metadata->>processed.is.null")`. -/
def selectedForProcessing (item : Item) : Bool :=
  match metaArrowText item "processed" with
  | none => true
  | some s => s == "false"

/-- The summary payload parsed from the generative model, projected to the
eight keys `process_item` reads with `summary.get(...)`; a `none` field is a
missing key. -/
structure SummaryPayload where
  short_summary : Option String
  long_summary : Option String
  key_insights : Option (List String)
  next_actions : Option (List String)
  risks : Option (List String)
  opportunities : Option (List String)
  sentiment : Option String
  priority_score : Option Int
  deriving DecidableEq, Repr

/-- A `client_summaries` row as built by the upsert in `process_item`. -/
structure SummaryRow where
  client_id : String
  short_summary : Option String
  long_summary : Option String
  key_insights : String
  next_actions : String
  risks : String
  opportunities : String
  sentiment : Option String
  priority_score : Option Int
  deriving DecidableEq, Repr

/-- The field mapping of the `client_summaries` upsert: `summary.get` for
scalar fields (so a missing key is persisted as null), and
`"\n".join(summary.get(key, []))` for the four list fields. -/
def mkSummaryRow (cid : String) (s : SummaryPayload) : SummaryRow :=
  { client_id := cid
    short_summary := s.short_summary
    long_summary := s.long_summary
    key_insights := String.intercalate "\n" (s.key_insights.getD [])
    next_actions := String.intercalate "\n" (s.next_actions.getD [])
    risks := String.intercalate "\n" (s.risks.getD [])
    opportunities := String.intercalate "\n" (s.opportunities.getD [])
    sentiment := s.sentiment
    priority_score := s.priority_score }

/-- One database write performed by `process_item`, in trace order. A chunk
row is identified by its `(item_id, chunk_index)` pair, the key the embedding
row's `chunk_id` resolves to. -/
inductive DbOp where
  | insertChunk (item_id client_id : String) (chunk_index : Nat) (content : List String) (token_count : Nat)
  | insertEmbedding (item_id : String) (chunk_index : Nat) (client_id : String) (embedding : List Int)
  | markProcessed (item_id : String) (metadata : JObj)
  | upsertSummary (row : SummaryRow)
  | insertSummaryVersion (client_id : String) (snapshot : SummaryPayload)
  deriving DecidableEq, Repr

/-- The writes a run performed, and the error that aborted it, if any. -/
structure RunResult where
  ops : List DbOp
  error : Option String
  deriving DecidableEq, Repr

/-- The per-chunk loop of `process_item`: for each `(idx, chunk)` insert the
chunk row, then compute and insert its embedding; a failing embedding call
aborts the loop, the already-written chunk row staying behind. `countTok`
stands for `count_tokens` and `embed` for `embed_text`, both external calls. -/
def processChunks (countTok : List String → Nat)
    (embed : List String → Except String (List Int))
    (item_id client_id : String) : List (Nat × List String) → RunResult
  | [] => ⟨[], none⟩
  | (idx, chunk) :: rest =>
      let cOp := DbOp.insertChunk item_id client_id idx chunk (countTok chunk)
      match embed chunk with
      | Except.error e => ⟨[cOp], some e⟩
      | Except.ok v =>
          let r := processChunks countTok embed item_id client_id rest
          ⟨cOp :: DbOp.insertEmbedding item_id idx client_id v :: r.ops, r.error⟩

/-- `process_item`: chunk the raw text, persist chunk and embedding rows in
index order, mark the item processed, then summarize the owning client and
persist the summary and its version snapshot. `summarize` stands for the
external `generate_summary` call. -/
def process_item (countTok : List String → Nat)
    (embed : List String → Except String (List Int))
    (summarize : String → Except String SummaryPayload)
    (item : Item) : RunResult :=
  let r := processChunks countTok embed item.id item.client_id
      ((chunk_text item.raw_text CHUNK_MAX).enum)
  match r.error with
  | some e => ⟨r.ops, some e⟩
  | none =>
      let ops := r.ops ++ [DbOp.markProcessed item.id (markedMetadata item)]
      match summarize item.client_id with
      | Except.error e => ⟨ops, some e⟩
      | Except.ok s =>
          ⟨ops ++ [DbOp.upsertSummary (mkSummaryRow item.client_id s),
                   DbOp.insertSummaryVersion item.client_id s], none⟩

/-- The batch sweep of `main` over the selected items: `process_item` is
called on each in turn, with no exception handling around the call, so the
first error ends the sweep. -/
def mainLoop (proc : Item → RunResult) : List Item → RunResult
  | [] => ⟨[], none⟩
  | it :: rest =>
      let r := proc it
      match r.error with
      | some e => ⟨r.ops, some e⟩
      | none =>
          let rr := mainLoop proc rest
          ⟨r.ops ++ rr.ops, rr.error⟩

/-- `main`: select the items whose `metadata->>processed` is `false` or
NULL, then process them in order. -/
def main_run (countTok : List String → Nat)
    (embed : List String → Except String (List Int))
    (summarize : String → Except String SummaryPayload)
    (items : List Item) : RunResult :=
  mainLoop (process_item countTok embed summarize) (items.filter selectedForProcessing)

/-- The chunk index recorded by a `knowledge_chunks` insert, if the op is one. -/
def chunkIndexOf : DbOp → Option Nat
  | DbOp.insertChunk _ _ idx _ _ => some idx
  | _ => none

/-- The chunk index referenced by a `knowledge_embeddings` insert, if the op is one. -/
def embIndexOf : DbOp → Option Nat
  | DbOp.insertEmbedding _ idx _ _ => some idx
  | _ => none

theorem find_map_self (k : String) (v : JVal) :
    ∀ m : JObj, m.any (fun p => p.1 == k) = true →
      (m.map (fun p => if p.1 == k then (k, v) else p)).find? (fun p => p.1 == k)
        = some (k, v) := by
  intro m
  induction m with
  | nil => intro h; simp at h
  | cons p rest ih =>
      intro h
      rw [List.map_cons]
      by_cases hp : (p.1 == k) = true
      · rw [if_pos hp]
        simp only [List.find?_cons, beq_self_eq_true]
      · have hp' : (p.1 == k) = false := by simpa using hp
        rw [if_neg hp]
        simp only [List.find?_cons, hp']
        apply ih
        simpa [List.any_cons, hp'] using h

theorem find_append_self (k : String) (v : JVal) :
    ∀ m : JObj, m.any (fun p => p.1 == k) = false →
      (m ++ [(k, v)]).find? (fun p => p.1 == k) = some (k, v) := by
  intro m
  induction m with
  | nil =>
      intro h
      simp only [List.nil_append, List.find?_cons, beq_self_eq_true]
  | cons p rest ih =>
      intro h
      simp only [List.any_cons, Bool.or_eq_false_iff] at h
      rw [List.cons_append]
      simp only [List.find?_cons, h.1]
      exact ih h.2

theorem find_map_other (k k' : String) (v : JVal) (hk : k' ≠ k) :
    ∀ m : JObj,
      (m.map (fun p => if p.1 == k then (k, v) else p)).find? (fun p => p.1 == k')
        = m.find? (fun p => p.1 == k') := by
  have hkk : (k == k') = false := by
    simp only [beq_eq_false_iff_ne, ne_eq]
    intro hh
    exact hk hh.symm
  intro m
  induction m with
  | nil => rfl
  | cons p rest ih =>
      rw [List.map_cons]
      by_cases hp : (p.1 == k) = true
      · have hpk : p.1 = k := by simpa using hp
        have h2 : (p.1 == k') = false := by rw [hpk]; exact hkk
        rw [if_pos hp]
        simp only [List.find?_cons, hkk, h2]
        exact ih
      · rw [if_neg hp]
        cases hq : p.1 == k' with
        | true => simp only [List.find?_cons, hq]
        | false =>
            simp only [List.find?_cons, hq]
            exact ih

theorem find_append_other (k k' : String) (v : JVal) (hk : k' ≠ k) :
    ∀ m : JObj,
      (m ++ [(k, v)]).find? (fun p => p.1 == k') = m.find? (fun p => p.1 == k') := by
  have hkk : (k == k') = false := by
    simp only [beq_eq_false_iff_ne, ne_eq]
    intro hh
    exact hk hh.symm
  intro m
  induction m with
  | nil =>
      simp only [List.nil_append, List.find?_cons, hkk, List.find?_nil]
  | cons p rest ih =>
      rw [List.cons_append]
      cases hq : p.1 == k' with
      | true => simp only [List.find?_cons, hq]
      | false =>
          simp only [List.find?_cons, hq]
          exact ih

theorem metaLookup_setKey_self (m : JObj) (k : String) (v : JVal) :
    metaLookup (setKey m k v) k = some v := by
  unfold setKey metaLookup
  by_cases hb : m.any (fun p => p.1 == k) = true
  · rw [if_pos hb, find_map_self k v m hb]
    rfl
  · have hb' : m.any (fun p => p.1 == k) = false := Bool.eq_false_iff.mpr hb
    rw [if_neg hb, find_append_self k v m hb']
    rfl

theorem metaLookup_setKey_other (m : JObj) (k k' : String) (v : JVal) (hk : k' ≠ k) :
    metaLookup (setKey m k v) k' = metaLookup m k' := by
  unfold setKey metaLookup
  by_cases hb : m.any (fun p => p.1 == k) = true
  · rw [if_pos hb, find_map_other k k' v hk m]
  · rw [if_neg hb, find_append_other k k' v hk m]

theorem processChunks_indices (ct : List String → Nat)
    (em : List String → Except String (List Int)) (iid cid : String) :
    ∀ (l : List (List String)) (k : Nat),
      (processChunks ct em iid cid (l.enumFrom k)).error = none →
      (processChunks ct em iid cid (l.enumFrom k)).ops.filterMap chunkIndexOf
        = List.range' k l.length := by
  intro l
  induction l with
  | nil =>
      intro k h
      simp [processChunks, List.enumFrom]
  | cons c rest ih =>
      intro k h
      rw [List.enumFrom_cons] at h ⊢
      cases hem : em c with
      | error e => simp [processChunks, hem] at h
      | ok v =>
          simp only [processChunks, hem] at h ⊢
          rw [List.filterMap_cons, List.filterMap_cons]
          simp only [chunkIndexOf]
          rw [ih (k + 1) h, List.length_cons, List.range'_succ]

theorem process_item_ops_split (ct : List String → Nat)
    (em : List String → Except String (List Int))
    (sm : String → Except String SummaryPayload) (item : Item) :
    ∃ t : List DbOp,
      (process_item ct em sm item).ops
        = (processChunks ct em item.id item.client_id
            ((chunk_text item.raw_text CHUNK_MAX).enum)).ops ++ t ∧
      ∀ op ∈ t, chunkIndexOf op = none ∧ embIndexOf op = none := by
  cases hr : (processChunks ct em item.id item.client_id
      ((chunk_text item.raw_text CHUNK_MAX).enum)).error with
  | some e =>
      refine ⟨[], ?_, by simp⟩
      simp [process_item, hr]
  | none =>
      cases hsm : sm item.client_id with
      | error e =>
          refine ⟨[DbOp.markProcessed item.id (markedMetadata item)], ?_, ?_⟩
          · simp [process_item, hr, hsm]
          · intro op hop
            simp only [List.mem_singleton] at hop
            subst hop
            exact ⟨rfl, rfl⟩
      | ok s =>
          refine ⟨[DbOp.markProcessed item.id (markedMetadata item),
                   DbOp.upsertSummary (mkSummaryRow item.client_id s),
                   DbOp.insertSummaryVersion item.client_id s], ?_, ?_⟩
          · simp [process_item, hr, hsm]
          · intro op hop
            simp only [List.mem_cons, List.not_mem_nil, or_false] at hop
            rcases hop with h1 | h1 | h1 <;> subst h1 <;> exact ⟨rfl, rfl⟩

theorem processChunks_emb_sub_chunk (ct : List String → Nat)
    (em : List String → Except String (List Int)) (iid cid : String) :
    ∀ (ps : List (Nat × List String)) (n idx : Nat),
      idx ∈ ((processChunks ct em iid cid ps).ops.take n).filterMap embIndexOf →
      idx ∈ ((processChunks ct em iid cid ps).ops.take n).filterMap chunkIndexOf := by
  intro ps
  induction ps with
  | nil =>
      intro n idx h
      simp [processChunks] at h
  | cons p rest ih =>
      obtain ⟨k, chunk⟩ := p
      intro n idx h
      cases hem : em chunk with
      | error e =>
          simp only [processChunks, hem] at h
          cases n with
          | zero => simp at h
          | succ n1 =>
              simp [List.take_succ_cons, List.filterMap_cons, embIndexOf] at h
      | ok v =>
          simp only [processChunks, hem] at h ⊢
          cases n with
          | zero => simp at h
          | succ n1 =>
              cases n1 with
              | zero =>
                  simp [List.take_succ_cons, List.filterMap_cons, embIndexOf] at h
              | succ n2 =>
                  simp only [List.take_succ_cons, List.filterMap_cons, chunkIndexOf,
                    embIndexOf, List.mem_cons] at h ⊢
                  rcases h with h | h
                  · exact Or.inl h
                  · exact Or.inr (ih n2 idx h)

/-- A concrete `count_tokens` stand-in for witnesses: the word count. -/
def wordCount (ws : List String) : Nat := ws.length

/-- An embedding call that always succeeds, for witnesses. -/
def embedOk : List String → Except String (List Int) := fun _ => Except.ok [1, 2, 3]

/-- An embedding call that always fails, for witnesses. -/
def embedBoom : List String → Except String (List Int) := fun _ => Except.error "boom"

/-- A summarization call that always succeeds, for witnesses. -/
def summaryOk : String → Except String SummaryPayload :=
  fun _ => Except.ok ⟨some "s", none, some ["k1"], none, none, none, some "positive", some 5⟩

/-- A summarization call that always fails, for witnesses. -/
def summaryBoom : String → Except String SummaryPayload := fun _ => Except.error "parse"

/-- A pending item with no metadata map. -/
def itemA : Item := ⟨"item-1", "client-1", ["hello", "world"], none⟩

/-- A pending item with a nonempty metadata map and no `processed` key. -/
def itemB : Item := ⟨"item-2", "client-1", ["second"], some [("source", JVal.str "mail")]⟩

/-- C4: for an item whose chunks and embeddings were all persisted, the
chunk rows carry indices exactly 0..N-1, in insertion order with no gaps or
duplicates. -/
theorem C4_chunk_indices (ct : List String → Nat)
    (em : List String → Except String (List Int))
    (sm : String → Except String SummaryPayload) (item : Item)
    (h : (processChunks ct em item.id item.client_id
        ((chunk_text item.raw_text CHUNK_MAX).enum)).error = none) :
    (process_item ct em sm item).ops.filterMap chunkIndexOf
      = List.range (chunk_text item.raw_text CHUNK_MAX).length := by
  obtain ⟨t, hsplit, ht⟩ := process_item_ops_split ct em sm item
  rw [hsplit, List.filterMap_append]
  have h2 : t.filterMap chunkIndexOf = [] := by
    rw [List.filterMap_eq_nil_iff]
    intro a ha
    exact (ht a ha).1
  have h0 : (processChunks ct em item.id item.client_id
      ((chunk_text item.raw_text CHUNK_MAX).enumFrom 0)).error = none := h
  have h3 := processChunks_indices ct em item.id item.client_id
      (chunk_text item.raw_text CHUNK_MAX) 0 h0
  rw [h2, List.append_nil, List.enum_eq_enumFrom, h3]
  exact (List.range_eq_range' _).symm

/-- Witness for C4: a two-word item, a succeeding embedder. -/
theorem C4_chunk_indices_witness :
    (processChunks wordCount embedOk itemA.id itemA.client_id
        ((chunk_text itemA.raw_text CHUNK_MAX).enum)).error = none ∧
    (process_item wordCount embedOk summaryOk itemA).ops.filterMap chunkIndexOf
      = List.range (chunk_text itemA.raw_text CHUNK_MAX).length :=
  ⟨rfl, C4_chunk_indices wordCount embedOk summaryOk itemA rfl⟩

/-- C5: at every point of `process_item`'s trace (every prefix), a chunk
index referenced by a persisted embedding row already has its chunk row
persisted: an embedding row never exists without its chunk row. -/
theorem C5_embedding_after_chunk (ct : List String → Nat)
    (em : List String → Except String (List Int))
    (sm : String → Except String SummaryPayload) (item : Item) (n idx : Nat)
    (h : idx ∈ ((process_item ct em sm item).ops.take n).filterMap embIndexOf) :
    idx ∈ ((process_item ct em sm item).ops.take n).filterMap chunkIndexOf := by
  obtain ⟨t, hsplit, ht⟩ := process_item_ops_split ct em sm item
  rw [hsplit, List.take_append_eq_append_take, List.filterMap_append] at h ⊢
  have hemb : (List.take (n - (processChunks ct em item.id item.client_id
      ((chunk_text item.raw_text CHUNK_MAX).enum)).ops.length) t).filterMap embIndexOf = [] := by
    rw [List.filterMap_eq_nil_iff]
    intro a ha
    exact (ht a (List.mem_of_mem_take ha)).2
  rw [hemb, List.append_nil] at h
  exact List.mem_append_left _
    (processChunks_emb_sub_chunk ct em item.id item.client_id _ n idx h)

/-- Witness for C5: the embedding op for chunk 0 inside the length-2 prefix. -/
theorem C5_embedding_after_chunk_witness :
    0 ∈ ((process_item wordCount embedOk summaryOk itemA).ops.take 2).filterMap embIndexOf ∧
    0 ∈ ((process_item wordCount embedOk summaryOk itemA).ops.take 2).filterMap chunkIndexOf :=
  ⟨by decide, C5_embedding_after_chunk wordCount embedOk summaryOk itemA 2 0 (by decide)⟩

/-- C8: once all chunk and embedding rows are persisted, the `processed`
flag write happens before summarization is attempted: on summarization
failure the trace ends right after the flag write, with the flag written;
on success the summary writes follow the flag write. -/
theorem C8_flag_before_summary (ct : List String → Nat)
    (em : List String → Except String (List Int))
    (sm : String → Except String SummaryPayload) (item : Item)
    (h : (processChunks ct em item.id item.client_id
        ((chunk_text item.raw_text CHUNK_MAX).enum)).error = none) :
    DbOp.markProcessed item.id (markedMetadata item) ∈ (process_item ct em sm item).ops ∧
    (∀ e, sm item.client_id = Except.error e →
        process_item ct em sm item
          = ⟨(processChunks ct em item.id item.client_id
                ((chunk_text item.raw_text CHUNK_MAX).enum)).ops
              ++ [DbOp.markProcessed item.id (markedMetadata item)], some e⟩) ∧
    (∀ s, sm item.client_id = Except.ok s →
        process_item ct em sm item
          = ⟨(processChunks ct em item.id item.client_id
                ((chunk_text item.raw_text CHUNK_MAX).enum)).ops
              ++ [DbOp.markProcessed item.id (markedMetadata item),
                  DbOp.upsertSummary (mkSummaryRow item.client_id s),
                  DbOp.insertSummaryVersion item.client_id s], none⟩) := by
  refine ⟨?_, ?_, ?_⟩
  · cases hsm : sm item.client_id with
    | error e => simp [process_item, h, hsm]
    | ok s => simp [process_item, h, hsm]
  · intro e hsm
    simp [process_item, h, hsm]
  · intro s hsm
    simp [process_item, h, hsm]

/-- Witness for C8: a failing summarizer leaves the flag write in the trace. -/
theorem C8_flag_before_summary_witness :
    (processChunks wordCount embedOk itemA.id itemA.client_id
        ((chunk_text itemA.raw_text CHUNK_MAX).enum)).error = none ∧
    DbOp.markProcessed itemA.id (markedMetadata itemA)
      ∈ (process_item wordCount embedOk summaryBoom itemA).ops ∧
    process_item wordCount embedOk summaryBoom itemA
      = ⟨(processChunks wordCount embedOk itemA.id itemA.client_id
            ((chunk_text itemA.raw_text CHUNK_MAX).enum)).ops
          ++ [DbOp.markProcessed itemA.id (markedMetadata itemA)], some "parse"⟩ :=
  ⟨rfl, (C8_flag_before_summary wordCount embedOk summaryBoom itemA rfl).1,
    (C8_flag_before_summary wordCount embedOk summaryBoom itemA rfl).2.1 "parse" rfl⟩

/-- C9: when the item's `processed` metadata value is a boolean or absent,
the poll selects the item exactly when the value is not `true`; and an item
just marked processed is not selected on the next poll. -/
theorem C9_poll_selection (item : Item)
    (hb : processedVal item = none ∨ processedVal item = some (JVal.bool false) ∨
        processedVal item = some (JVal.bool true)) :
    (selectedForProcessing item = true ↔ processedVal item ≠ some (JVal.bool true)) ∧
    selectedForProcessing (markItemProcessed item) = false := by
  constructor
  · cases hm : item.metadata with
    | none =>
        simp [selectedForProcessing, metaArrowText, processedVal, hm]
    | some m =>
        have hpv : processedVal item = metaLookup m "processed" := by
          simp [processedVal, hm]
        rcases hb with hb | hb | hb <;> rw [hpv] at hb <;>
          simp [selectedForProcessing, metaArrowText, hm, hb, jsonText, processedVal]
  · have h1 : metaLookup (markedMetadata item) "processed" = some (JVal.bool true) :=
      metaLookup_setKey_self _ _ _
    simp [selectedForProcessing, metaArrowText, markItemProcessed, h1, jsonText]

/-- Witness for C9: an item whose `processed` key is absent. -/
theorem C9_poll_selection_witness :
    (processedVal itemB = none ∨ processedVal itemB = some (JVal.bool false) ∨
        processedVal itemB = some (JVal.bool true)) ∧
    ((selectedForProcessing itemB = true ↔ processedVal itemB ≠ some (JVal.bool true)) ∧
      selectedForProcessing (markItemProcessed itemB) = false) :=
  ⟨Or.inl rfl, C9_poll_selection itemB (Or.inl rfl)⟩

/-- C10: flipping the `processed` flag preserves every other metadata key,
sets `processed` to true, and treats an absent metadata map as empty. -/
theorem C10_metadata_preserved (item : Item) (k : String) (hk : k ≠ "processed") :
    metaLookup (markedMetadata item) k = metaLookup (item.metadata.getD []) k ∧
    metaLookup (markedMetadata item) "processed" = some (JVal.bool true) ∧
    (item.metadata = none → markedMetadata item = [("processed", JVal.bool true)]) := by
  refine ⟨?_, ?_, ?_⟩
  · exact metaLookup_setKey_other (item.metadata.getD []) "processed" k (JVal.bool true) hk
  · exact metaLookup_setKey_self (item.metadata.getD []) "processed" (JVal.bool true)
  · intro h
    simp [markedMetadata, h, setKey]

/-- Witness for C10: the `source` key of a marked item is preserved. -/
theorem C10_metadata_preserved_witness :
    ("source" : String) ≠ "processed" ∧
    (metaLookup (markedMetadata itemB) "source" = metaLookup (itemB.metadata.getD []) "source" ∧
      metaLookup (markedMetadata itemB) "processed" = some (JVal.bool true) ∧
      (itemB.metadata = none → markedMetadata itemB = [("processed", JVal.bool true)])) :=
  ⟨by decide, C10_metadata_preserved itemB "source" (by decide)⟩

/-- C6 counterexample: a payload with `Priority Score` 99, sentiment
`angry` and a missing `Short Summary` is persisted with the score unclamped,
the sentiment unvalidated, and the missing text field null, against the
claim's clamping, validation and empty-string defaults. -/
theorem C6_counterexample :
    (mkSummaryRow "client-1"
        ⟨none, none, none, some ["call", "email"], none, none, some "angry", some 99⟩).priority_score
      = some 99 ∧
    ¬((1 : Int) ≤ 99 ∧ (99 : Int) ≤ 10) ∧
    (mkSummaryRow "client-1"
        ⟨none, none, none, some ["call", "email"], none, none, some "angry", some 99⟩).sentiment
      = some "angry" ∧
    ¬("angry" = "positive" ∨ "angry" = "neutral" ∨ "angry" = "negative") ∧
    (mkSummaryRow "client-1"
        ⟨none, none, none, some ["call", "email"], none, none, some "angry", some 99⟩).short_summary
      = none :=
  ⟨rfl, by decide, rfl, by decide, rfl⟩

/-- C6 (amended): the upsert persists the payload fields verbatim: scalar
fields pass through unchanged (missing ones stored as null, with no clamping
of the priority score and no sentiment validation); list fields are
newline-joined, a missing list defaulting to the empty list, so to the empty
string. -/
theorem C6_amended (cid : String) (s : SummaryPayload) :
    (mkSummaryRow cid s).short_summary = s.short_summary ∧
    (mkSummaryRow cid s).long_summary = s.long_summary ∧
    (mkSummaryRow cid s).key_insights = String.intercalate "\n" (s.key_insights.getD []) ∧
    (mkSummaryRow cid s).next_actions = String.intercalate "\n" (s.next_actions.getD []) ∧
    (mkSummaryRow cid s).risks = String.intercalate "\n" (s.risks.getD []) ∧
    (mkSummaryRow cid s).opportunities = String.intercalate "\n" (s.opportunities.getD []) ∧
    (mkSummaryRow cid s).sentiment = s.sentiment ∧
    (mkSummaryRow cid s).priority_score = s.priority_score ∧
    mkSummaryRow cid ⟨none, none, none, none, none, none, none, none⟩
      = ⟨cid, none, none, "", "", "", "", none, none⟩ :=
  ⟨rfl, rfl, rfl, rfl, rfl, rfl, rfl, rfl, rfl⟩

/-- C7 counterexample: with two pending items and an embedder that fails on
the first, the sweep ends with the error and the second item is never
processed — nothing is caught, the failure propagates out of the batch run. -/
theorem C7_counterexample :
    (main_run wordCount embedBoom summaryOk [itemA, itemB]).error = some "boom" ∧
    (main_run wordCount embedBoom summaryOk [itemA, itemB]).ops
      = [DbOp.insertChunk "item-1" "client-1" 0 ["hello", "world"] 2] :=
  ⟨rfl, rfl⟩

/-- C7 (amended): a failure raised while processing an item propagates out
of the batch run and aborts it: the run's result carries that error, and no
later item is processed. -/
theorem C7_amended (ct : List String → Nat)
    (em : List String → Except String (List Int))
    (sm : String → Except String SummaryPayload)
    (it : Item) (rest : List Item) (e : String)
    (hsel : selectedForProcessing it = true)
    (herr : (process_item ct em sm it).error = some e) :
    main_run ct em sm (it :: rest) = ⟨(process_item ct em sm it).ops, some e⟩ := by
  unfold main_run
  rw [List.filter_cons_of_pos hsel]
  simp [mainLoop, herr]

/-- Witness for C7 (amended): the failing first item aborts the sweep. -/
theorem C7_amended_witness :
    selectedForProcessing itemA = true ∧
    (process_item wordCount embedBoom summaryOk itemA).error = some "boom" ∧
    main_run wordCount embedBoom summaryOk (itemA :: [itemB])
      = ⟨(process_item wordCount embedBoom summaryOk itemA).ops, some "boom"⟩ :=
  ⟨rfl, rfl, C7_amended wordCount embedBoom summaryOk itemA [itemB] "boom" rfl rfl⟩

end IngestWorker
